import Mathlib

/-!
Verification development for the generative-art rendering core.

The embedding below translates the rendering core of `src/unnamed/part_001`
(the complete implementation; the files `src/src/App.tsx` and
`src/unnamed/part_000` are earlier, incomplete drafts of the same component)
into Lean.  JavaScript numbers are modelled as real numbers; the drawing
surface is modelled as the list of drawing commands a call emits, and the
host's random-number source is passed in explicitly as streams of reals.
Stroke colours are not modelled: no verified property below depends on them.
-/

open Real

/-- Tree pattern parameters (interface `TreeParams`). -/
structure TreeParams where
  branchAngle : ℝ
  depth : ℤ
  branches : ℕ
  lengthRatio : ℝ
  thickness : ℝ

/-- Spirograph pattern parameters (interface `SpirographParams`). -/
structure SpirographParams where
  outerRadius : ℝ
  innerRadius : ℝ
  offset : ℝ
  speed : ℝ
  iterations : ℕ

/-- Flow-field pattern parameters (interface `FlowParams`). -/
structure FlowParams where
  particles : ℕ
  steps : ℕ
  noiseScale : ℝ
  flowStrength : ℝ
  alpha : ℝ

/-- The pattern selector (`type PatternType`). -/
inductive PatternType where
  | tree
  | spirograph
  | flow

/-- The mutable state the animator reads and writes: the animation progress
and the three parameter records. -/
structure RenderState where
  progress : ℝ
  treeParams : TreeParams
  spiroParams : SpirographParams
  flowParams : FlowParams

/-- A drawing command issued to the canvas: either a rectangle fill with a
given colour and global alpha, or a stroked polyline with a line width, a
global alpha and a flag recording whether the same path is re-stroked with a
shadow-blur glow pass. -/
inductive CanvasOp where
  | fillRect (color : String) (alpha x y w h : ℝ)
  | strokePath (pts : List (ℝ × ℝ)) (lineWidth alpha : ℝ) (glow : Bool)

/-- The noise utility (`noise` in the source): a weighted sum of three
sine-times-cosine products at increasing frequency and decreasing amplitude. -/
noncomputable def noise (x y : ℝ) : ℝ :=
  Real.sin (x * 0.01) * Real.cos (y * 0.01) +
    Real.sin (x * 0.02 + 10) * Real.cos (y * 0.02 + 10) * 0.5 +
    Real.sin (x * 0.03 + 20) * Real.cos (y * 0.03 + 20) * 0.25

/-- The recursive branch painter (`drawBranch` in the source).  `lr`, `ba`,
`b` and `tD` are the captured `treeParams.lengthRatio`, `.branchAngle`,
`.branches` and `.depth`; the remaining arguments are the function's own
parameters.  Each call strokes one segment (with a glow re-stroke when
`depth > treeParams.depth - 3`, recorded in the `glow` flag), then, unless
`depth <= 0`, recurses once per branch with `depth - 1`. -/
noncomputable def drawBranch (lr ba : ℝ) (b : ℕ) (tD : ℤ)
    (x y len ang : ℝ) (d : ℤ) (th : ℝ) : List CanvasOp :=
  let endX := x + len * Real.cos ang
  let endY := y - len * Real.sin ang
  let seg := CanvasOp.strokePath [(x, y), (endX, endY)] th 1 (decide (tD - 3 < d))
  if h : d ≤ 0 then [seg]
  else
    seg :: (List.range b).flatMap (fun (i : ℕ) =>
      drawBranch lr ba b tD endX endY (len * lr)
        (ang + ba * Real.pi / 180 * ((i : ℝ) - ((b : ℝ) - 1) / 2))
        (d - 1) (th * 0.7))
termination_by d.toNat
decreasing_by omega

/-- The tree generator (`drawTree` in the source): a hard clear with the
dark background colour, then the recursion started at the bottom centre with
trunk length `height / 4`, heading straight up (`PI / 2`). -/
noncomputable def drawTree (w h : ℝ) (tp : TreeParams) : List CanvasOp :=
  CanvasOp.fillRect "#0a0a15" 1 0 0 w h ::
    drawBranch tp.lengthRatio tp.branchAngle tp.branches tp.depth
      (w / 2) (h - 50) (h / 4) (Real.pi / 2) tp.depth tp.thickness

/-- One sampled spirograph point at curve parameter `t` (the loop body of
`drawSpirograph`). -/
noncomputable def spiroPoint (cx cy R r off t : ℝ) : ℝ × ℝ :=
  (cx + (R - r) * Real.cos t + off * Real.cos ((R - r) / r * t),
   cy + (R - r) * Real.sin t - off * Real.sin ((R - r) / r * t))

/-- The full sampled spirograph path: `i` runs from `0` to `iterations`
inclusive with `t = (i / iterations) * PI * 20`. -/
noncomputable def spiroPoints (cx cy R r off : ℝ) (iters : ℕ) : List (ℝ × ℝ) :=
  (List.range (iters + 1)).map fun (i : ℕ) =>
    spiroPoint cx cy R r off ((i : ℝ) / (iters : ℝ) * Real.pi * 20)

/-- The spirograph generator (`drawSpirograph` in the source): hard clear,
one continuous polyline stroked at alpha `0.7`, then the identical polyline
re-stroked as a glow pass at alpha `0.5`. -/
noncomputable def drawSpirograph (w h : ℝ) (sp : SpirographParams) : List CanvasOp :=
  let pts := spiroPoints (w / 2) (h / 2) sp.outerRadius sp.innerRadius sp.offset sp.iterations
  [CanvasOp.fillRect "#0a0a15" 1 0 0 w h,
   CanvasOp.strokePath pts 2 0.7 false,
   CanvasOp.strokePath pts 2 0.5 true]

/-- The edge wrap of the flow field: `if (x < 0) x = width; if (x > width)
x = 0;` (the two source `if`s cannot both fire, so they are an if/else). -/
noncomputable def wrapCoord (w x : ℝ) : ℝ :=
  if x < 0 then w else if x > w then 0 else x

/-- One advection step of a flow-field particle: sample the noise at the
scaled position, turn it into a heading `noise * PI * 4`, add the random
jitter `(rand - 0.5) * 0.5`, advance by `flowStrength` and wrap both
coordinates at the edges.  `jr` is the `Math.random()` draw for this step. -/
noncomputable def flowStep (w h ns fs jr : ℝ) (pos : ℝ × ℝ) : ℝ × ℝ :=
  let noiseValue := noise (pos.1 * ns) (pos.2 * ns)
  let angle := noiseValue * Real.pi * 4
  let jitter := (jr - 0.5) * 0.5
  (wrapCoord w (pos.1 + Real.cos (angle + jitter) * fs),
   wrapCoord h (pos.2 + Real.sin (angle + jitter) * fs))

/-- The position of a particle after `n` advection steps, starting from
`start`, with `jit i` the jitter random draw of step `i`. -/
noncomputable def flowTrajectory (w h ns fs : ℝ) (jit : ℕ → ℝ) (start : ℝ × ℝ) :
    ℕ → ℝ × ℝ
  | 0 => start
  | n + 1 => flowStep w h ns fs (jit n) (flowTrajectory w h ns fs jit start n)

/-- The drawing commands one particle emits: each step is stroked as its own
two-point segment at line width `1.2` and the configured alpha. -/
noncomputable def particleOps (w h ns fs alpha : ℝ) (steps : ℕ) (jit : ℕ → ℝ)
    (start : ℝ × ℝ) : List CanvasOp :=
  (List.range steps).map fun i =>
    CanvasOp.strokePath
      [flowTrajectory w h ns fs jit start i, flowTrajectory w h ns fs jit start (i + 1)]
      1.2 alpha false

/-- The flow-field generator (`drawFlowField` in the source): a low-opacity
(`globalAlpha = 0.15`) background fill — not a hard clear — followed by the
per-step segment strokes of every particle.  `startRand p` supplies the two
`Math.random()` draws seeding particle `p`'s start position, and
`jitterRand p i` the jitter draw of its step `i`. -/
noncomputable def drawFlowField (w h : ℝ) (fp : FlowParams)
    (startRand : ℕ → ℝ × ℝ) (jitterRand : ℕ → ℕ → ℝ) : List CanvasOp :=
  CanvasOp.fillRect "#0a0a15" 0.15 0 0 w h ::
    (List.range fp.particles).flatMap fun p =>
      particleOps w h fp.noiseScale fp.flowStrength fp.alpha fp.steps (jitterRand p)
        ((startRand p).1 * w, (startRand p).2 * h)

/-- JavaScript `Math.trunc` on a real: rounding toward zero. -/
noncomputable def jsTrunc (x : ℝ) : ℤ := if 0 ≤ x then ⌊x⌋ else ⌈x⌉

/-- The JavaScript remainder operator `%` on reals: `a - b * trunc (a / b)`. -/
noncomputable def jsMod (a b : ℝ) : ℝ := a - b * (jsTrunc (a / b) : ℝ)

/-- The per-tick progress update of the animator: `(prev + 0.01) % 1`. -/
noncomputable def animateProgress (p : ℝ) : ℝ := jsMod (p + 0.01) 1

/-- The animator (`animate` in the source, its state-update part): advance
`progress` by the fixed increment modulo 1, and overwrite exactly one field
of the active pattern's parameter record with a sine oscillation computed
from the pre-tick progress. -/
noncomputable def animate (pat : PatternType) (s : RenderState) : RenderState :=
  match pat with
  | .tree =>
      { s with
        progress := animateProgress s.progress
        treeParams :=
          { s.treeParams with
            branchAngle := 25 + Real.sin (s.progress * Real.pi * 2) * 10 } }
  | .spirograph =>
      { s with
        progress := animateProgress s.progress
        spiroParams :=
          { s.spiroParams with
            innerRadius := 100 + Real.sin (s.progress * Real.pi * 2) * 30 } }
  | .flow =>
      { s with
        progress := animateProgress s.progress
        flowParams :=
          { s.flowParams with
            noiseScale := 0.01 + Real.sin (s.progress * Real.pi * 2) * 0.005 } }

/-- Whether a drawing command is a path stroke (as opposed to a fill). -/
def isStroke : CanvasOp → Bool
  | .strokePath _ _ _ _ => true
  | .fillRect _ _ _ _ _ _ => false

/-- The number of stroked paths in a command list: for the tree generator,
one per drawn branch segment. -/
def strokeCount (ops : List CanvasOp) : ℕ := (ops.filter isStroke).length

/-- The alphas of all rectangle fills in a command list, in order.  A hard
clear shows up here as an entry `1`; the flow field's soft fade as `0.15`. -/
def fillAlphas (ops : List CanvasOp) : List ℝ :=
  ops.filterMap fun op =>
    match op with
    | .fillRect _ a _ _ _ _ => some a
    | .strokePath _ _ _ _ => none

/-- Total number of branch segments a tree of integer depth `d` with `b`
children per node draws: the geometric sum `1 + b + b^2 + ... + b^(toNat d)`. -/
def segTotal (b : ℕ) (d : ℤ) : ℕ := ∑ k ∈ Finset.range (d.toNat + 1), b ^ k

/-- The constant stream of `Math.random()` draws returning `1 / 2`
(no jitter: `(0.5 - 0.5) * 0.5 = 0`). -/
noncomputable def constHalf : ℕ → ℝ := fun _ => 1 / 2

/-! ### Basic facts about the embedded operations -/

lemma flowStep_fst (w h ns fs jr : ℝ) (pos : ℝ × ℝ) :
    (flowStep w h ns fs jr pos).1 =
      wrapCoord w (pos.1 +
        Real.cos (noise (pos.1 * ns) (pos.2 * ns) * Real.pi * 4 + (jr - 0.5) * 0.5) * fs) :=
  rfl

lemma flowStep_snd (w h ns fs jr : ℝ) (pos : ℝ × ℝ) :
    (flowStep w h ns fs jr pos).2 =
      wrapCoord h (pos.2 +
        Real.sin (noise (pos.1 * ns) (pos.2 * ns) * Real.pi * 4 + (jr - 0.5) * 0.5) * fs) :=
  rfl

lemma wrapCoord_bounds (w : ℝ) (hw : 0 ≤ w) (x : ℝ) :
    0 ≤ wrapCoord w x ∧ wrapCoord w x ≤ w := by
  unfold wrapCoord
  split_ifs with h1 h2
  · exact ⟨hw, le_rfl⟩
  · exact ⟨le_rfl, hw⟩
  · exact ⟨le_of_not_lt h1, le_of_not_lt h2⟩

lemma sin_mul_cos_bounds (a b : ℝ) :
    -1 ≤ Real.sin a * Real.cos b ∧ Real.sin a * Real.cos b ≤ 1 := by
  constructor <;>
    nlinarith [Real.neg_one_le_sin a, Real.sin_le_one a,
      Real.neg_one_le_cos b, Real.cos_le_one b]

/-- C7: the noise function is pure and deterministic — equal inputs give
identical outputs — and its value always lies within `[-1.75, 1.75]`. -/
theorem noise_deterministic_and_bounded (x y x2 y2 : ℝ) (hx : x = x2) (hy : y = y2) :
    (-1.75 ≤ noise x y ∧ noise x y ≤ 1.75) ∧ noise x y = noise x2 y2 := by
  subst hx hy
  refine ⟨?_, rfl⟩
  unfold noise
  obtain ⟨l1, u1⟩ := sin_mul_cos_bounds (x * 0.01) (y * 0.01)
  obtain ⟨l2, u2⟩ := sin_mul_cos_bounds (x * 0.02 + 10) (y * 0.02 + 10)
  obtain ⟨l3, u3⟩ := sin_mul_cos_bounds (x * 0.03 + 20) (y * 0.03 + 20)
  constructor <;> linarith

theorem noise_deterministic_and_bounded_witness :
    ((3 : ℝ) = 3 ∧ (4 : ℝ) = 4) ∧
      (-1.75 ≤ noise 3 4 ∧ noise 3 4 ≤ 1.75) ∧ noise 3 4 = noise 3 4 :=
  ⟨⟨rfl, rfl⟩, noise_deterministic_and_bounded 3 4 3 4 rfl rfl⟩

/-- C8: each animator tick overwrites exactly one field of the active
pattern's parameter record (`branchAngle` for Tree, `innerRadius` for
Spirograph, `noiseScale` for Flow) with its sine oscillation; every other
field of that record and both inactive records are unchanged. -/
theorem animator_modifies_exactly_one_field (s : RenderState) :
    ((animate .tree s).treeParams.branchAngle
        = 25 + Real.sin (s.progress * Real.pi * 2) * 10 ∧
      (animate .tree s).treeParams.depth = s.treeParams.depth ∧
      (animate .tree s).treeParams.branches = s.treeParams.branches ∧
      (animate .tree s).treeParams.lengthRatio = s.treeParams.lengthRatio ∧
      (animate .tree s).treeParams.thickness = s.treeParams.thickness ∧
      (animate .tree s).spiroParams = s.spiroParams ∧
      (animate .tree s).flowParams = s.flowParams) ∧
    ((animate .spirograph s).spiroParams.innerRadius
        = 100 + Real.sin (s.progress * Real.pi * 2) * 30 ∧
      (animate .spirograph s).spiroParams.outerRadius = s.spiroParams.outerRadius ∧
      (animate .spirograph s).spiroParams.offset = s.spiroParams.offset ∧
      (animate .spirograph s).spiroParams.speed = s.spiroParams.speed ∧
      (animate .spirograph s).spiroParams.iterations = s.spiroParams.iterations ∧
      (animate .spirograph s).treeParams = s.treeParams ∧
      (animate .spirograph s).flowParams = s.flowParams) ∧
    ((animate .flow s).flowParams.noiseScale
        = 0.01 + Real.sin (s.progress * Real.pi * 2) * 0.005 ∧
      (animate .flow s).flowParams.particles = s.flowParams.particles ∧
      (animate .flow s).flowParams.steps = s.flowParams.steps ∧
      (animate .flow s).flowParams.flowStrength = s.flowParams.flowStrength ∧
      (animate .flow s).flowParams.alpha = s.flowParams.alpha ∧
      (animate .flow s).treeParams = s.treeParams ∧
      (animate .flow s).spiroParams = s.spiroParams) :=
  ⟨⟨rfl, rfl, rfl, rfl, rfl, rfl, rfl⟩,
   ⟨rfl, rfl, rfl, rfl, rfl, rfl, rfl⟩,
   ⟨rfl, rfl, rfl, rfl, rfl, rfl, rfl⟩⟩


/-! ### Fill/stroke classification of the emitted command lists -/

lemma fillAlphas_cons_fill (c : String) (a x y w h : ℝ) (l : List CanvasOp) :
    fillAlphas (CanvasOp.fillRect c a x y w h :: l) = a :: fillAlphas l :=
  rfl

lemma fillAlphas_cons_stroke (pts : List (ℝ × ℝ)) (lw a : ℝ) (g : Bool)
    (l : List CanvasOp) :
    fillAlphas (CanvasOp.strokePath pts lw a g :: l) = fillAlphas l :=
  rfl

lemma fillAlphas_eq_nil_of_forall_stroke (l : List CanvasOp)
    (h : ∀ op ∈ l, isStroke op = true) : fillAlphas l = [] := by
  induction l with
  | nil => rfl
  | cons a t ih =>
    have ha := h a (List.mem_cons_self a t)
    cases a with
    | fillRect c al x y w hh => simp [isStroke] at ha
    | strokePath pts lw al g =>
      rw [fillAlphas_cons_stroke]
      exact ih fun op hop => h op (List.mem_cons_of_mem _ hop)

lemma fillAlphas_particleOps (w h ns fs a : ℝ) (steps : ℕ) (jit : ℕ → ℝ)
    (start : ℝ × ℝ) : fillAlphas (particleOps w h ns fs a steps jit start) = [] := by
  apply fillAlphas_eq_nil_of_forall_stroke
  intro op hop
  unfold particleOps at hop
  rw [List.mem_map] at hop
  obtain ⟨i, _, rfl⟩ := hop
  rfl

lemma fillAlphas_flatMap_nil {α : Type} (l : List α) (g : α → List CanvasOp)
    (h : ∀ a ∈ l, fillAlphas (g a) = []) : fillAlphas (l.flatMap g) = [] := by
  induction l with
  | nil => rfl
  | cons a t ih =>
    rw [List.flatMap_cons]
    unfold fillAlphas
    rw [List.filterMap_append]
    have h1 := h a (List.mem_cons_self a t)
    have h2 := ih fun b hb => h b (List.mem_cons_of_mem _ hb)
    unfold fillAlphas at h1 h2
    rw [h1, h2]
    rfl

lemma sum_map_length_eq {α β : Type} (l : List α) (f : α → List β) (c : ℕ)
    (h : ∀ a ∈ l, (f a).length = c) : (l.map (List.length ∘ f)).sum = l.length * c := by
  induction l with
  | nil => simp
  | cons a t ih =>
    rw [List.map_cons, List.sum_cons, ih fun b hb => h b (List.mem_cons_of_mem _ hb),
      List.length_cons, Function.comp_apply, h a (List.mem_cons_self a t)]
    ring

/-! ### The structure of the tree recursion -/

lemma segTotal_succ (b : ℕ) (d : ℤ) (hd : 0 < d) :
    segTotal b d = b * segTotal b (d - 1) + 1 := by
  have hdt : d.toNat = (d - 1).toNat + 1 := by omega
  unfold segTotal
  rw [hdt, Finset.sum_range_succ']
  simp only [pow_succ, pow_zero]
  rw [← Finset.sum_mul]
  ring

lemma drawBranch_aux :
    ∀ (n : ℕ) (d : ℤ), d.toNat ≤ n → ∀ (lr ba : ℝ) (b : ℕ) (tD : ℤ) (x y len ang th : ℝ),
      (∀ op ∈ drawBranch lr ba b tD x y len ang d th, isStroke op = true) ∧
      (drawBranch lr ba b tD x y len ang d th).length = segTotal b d := by
  intro n
  induction n with
  | zero =>
    intro d hd lr ba b tD x y len ang th
    have hd0 : d ≤ 0 := by omega
    unfold drawBranch
    rw [dif_pos hd0]
    refine ⟨?_, ?_⟩
    · intro op hop
      rw [List.mem_singleton] at hop
      subst hop
      rfl
    · simp [segTotal, show d.toNat = 0 by omega]
  | succ n ih =>
    intro d hd lr ba b tD x y len ang th
    by_cases hd0 : d ≤ 0
    · unfold drawBranch
      rw [dif_pos hd0]
      refine ⟨?_, ?_⟩
      · intro op hop
        rw [List.mem_singleton] at hop
        subst hop
        rfl
      · simp [segTotal, show d.toNat = 0 by omega]
    · have hstep : (d - 1).toNat ≤ n := by omega
      unfold drawBranch
      rw [dif_neg hd0]
      refine ⟨?_, ?_⟩
      · intro op hop
        rw [List.mem_cons] at hop
        rcases hop with rfl | hop
        · rfl
        · rw [List.mem_flatMap] at hop
          obtain ⟨i, _, hopi⟩ := hop
          exact (ih (d - 1) hstep lr ba b tD _ _ _ _ _).1 op hopi
      · rw [List.length_cons, List.length_flatMap,
          sum_map_length_eq _ _ (segTotal b (d - 1))
            (fun i _ => (ih (d - 1) hstep lr ba b tD _ _ _ _ _).2),
          List.length_range]
        rw [segTotal_succ b d (by omega)]

lemma drawBranch_all_strokes (lr ba : ℝ) (b : ℕ) (tD : ℤ) (x y len ang : ℝ)
    (d : ℤ) (th : ℝ) :
    ∀ op ∈ drawBranch lr ba b tD x y len ang d th, isStroke op = true :=
  (drawBranch_aux d.toNat d le_rfl lr ba b tD x y len ang th).1

lemma drawBranch_length (lr ba : ℝ) (b : ℕ) (tD : ℤ) (x y len ang : ℝ)
    (d : ℤ) (th : ℝ) :
    (drawBranch lr ba b tD x y len ang d th).length = segTotal b d :=
  (drawBranch_aux d.toNat d le_rfl lr ba b tD x y len ang th).2

/-- C4: each flow-field call begins with a low-opacity (`0.15`) overlay of
the background colour — the only fill it ever performs, so it never issues an
opaque hard clear — while the tree and spirograph generators each perform an
opaque (`alpha = 1`) hard clear, making the non-clearing soft fade specific
to the flow-field pattern. -/
theorem flow_soft_fade_not_hard_clear (w h : ℝ) (fp : FlowParams)
    (sr : ℕ → ℝ × ℝ) (jr : ℕ → ℕ → ℝ) (tp : TreeParams) (sp : SpirographParams) :
    (drawFlowField w h fp sr jr).head? = some (CanvasOp.fillRect "#0a0a15" 0.15 0 0 w h) ∧
    fillAlphas (drawFlowField w h fp sr jr) = [0.15] ∧
    (0.15 : ℝ) < 1 ∧
    fillAlphas (drawTree w h tp) = [1] ∧
    fillAlphas (drawSpirograph w h sp) = [1] := by
  refine ⟨rfl, ?_, by norm_num, ?_, rfl⟩
  · unfold drawFlowField
    rw [fillAlphas_cons_fill,
      fillAlphas_flatMap_nil _ _ fun p _ => fillAlphas_particleOps _ _ _ _ _ _ _ _]
  · unfold drawTree
    rw [fillAlphas_cons_fill,
      fillAlphas_eq_nil_of_forall_stroke _ (drawBranch_all_strokes _ _ _ _ _ _ _ _ _ _)]

lemma strokeCount_drawTree (w h : ℝ) (tp : TreeParams) :
    strokeCount (drawTree w h tp) = segTotal tp.branches tp.depth := by
  unfold strokeCount drawTree
  rw [List.filter_cons]
  simp only [isStroke, Bool.false_eq_true, if_false]
  rw [List.filter_eq_self.mpr (drawBranch_all_strokes _ _ _ _ _ _ _ _ _ _)]
  exact drawBranch_length _ _ _ _ _ _ _ _ _ _

/-- C2: a tree call with branch count `b ≥ 1` and depth `d ≥ 0` draws exactly
`(b^(d+1) - 1) / (b - 1)` segments when `b > 1` and `d + 1` segments when
`b = 1`; for depth `0` it draws exactly one segment and does not recurse
(the whole trace is the clear plus that single segment). -/
theorem tree_segment_count (w h : ℝ) (tp : TreeParams)
    (hb : 1 ≤ tp.branches) (hd : 0 ≤ tp.depth) :
    strokeCount (drawTree w h tp) =
      (if tp.branches = 1 then tp.depth.toNat + 1
       else (tp.branches ^ (tp.depth.toNat + 1) - 1) / (tp.branches - 1)) ∧
    (tp.depth = 0 → strokeCount (drawTree w h tp) = 1 ∧ (drawTree w h tp).length = 2) := by
  constructor
  · rw [strokeCount_drawTree]
    by_cases h1 : tp.branches = 1
    · rw [if_pos h1, h1]
      unfold segTotal
      simp
    · rw [if_neg h1]
      unfold segTotal
      exact Nat.geomSum_eq (by omega) _
  · intro h0
    refine ⟨?_, ?_⟩
    · rw [strokeCount_drawTree, h0]
      unfold segTotal
      simp
    · unfold drawTree
      rw [List.length_cons, drawBranch_length, h0]
      unfold segTotal
      simp

theorem tree_segment_count_witness :
    (1 ≤ 2 ∧ (0 : ℤ) ≤ 2) ∧
      strokeCount (drawTree 800 600 ⟨25, 2, 2, 0.67, 10⟩) = 7 := by
  refine ⟨⟨by norm_num, by norm_num⟩, ?_⟩
  rw [(tree_segment_count 800 600 ⟨25, 2, 2, 0.67, 10⟩ (by norm_num) (by norm_num)).1]
  decide

/-- C9: the tree recursion is total: when `depth ≤ 0` the call returns after
drawing its single segment (the sole base case), when `depth > 0` it recurses
exactly once per branch with `depth - 1`, and the number of drawn segments is
the finite count `segTotal`, which does not depend on `lengthRatio` — in
particular termination holds even for `lengthRatio ≥ 1`. -/
theorem tree_recursion_terminates (lr ba x y len ang th : ℝ) (b : ℕ) (tD d : ℤ)
    (hlr : 1 ≤ lr) :
    (d ≤ 0 → drawBranch lr ba b tD x y len ang d th
        = [CanvasOp.strokePath [(x, y), (x + len * Real.cos ang, y - len * Real.sin ang)]
            th 1 (decide (tD - 3 < d))]) ∧
    (0 < d → drawBranch lr ba b tD x y len ang d th
        = CanvasOp.strokePath [(x, y), (x + len * Real.cos ang, y - len * Real.sin ang)]
            th 1 (decide (tD - 3 < d)) ::
          (List.range b).flatMap (fun (i : ℕ) =>
            drawBranch lr ba b tD (x + len * Real.cos ang) (y - len * Real.sin ang)
              (len * lr) (ang + ba * Real.pi / 180 * ((i : ℝ) - ((b : ℝ) - 1) / 2))
              (d - 1) (th * 0.7))) ∧
    (drawBranch lr ba b tD x y len ang d th).length = segTotal b d := by
  refine ⟨?_, ?_, drawBranch_length _ _ _ _ _ _ _ _ _ _⟩
  · intro h0
    conv_lhs => rw [drawBranch]
    rw [dif_pos h0]
  · intro h0
    conv_lhs => rw [drawBranch]
    rw [dif_neg (by omega : ¬d ≤ 0)]

theorem tree_recursion_terminates_witness :
    (1 : ℝ) ≤ 3 / 2 ∧
      (drawBranch (3 / 2) 25 2 9 0 0 100 (Real.pi / 2) 1 10).length = segTotal 2 1 :=
  ⟨by norm_num,
    (tree_recursion_terminates (3 / 2) 25 0 0 100 (Real.pi / 2) 10 2 9 1 (by norm_num)).2.2⟩

/-! ### The animator's progress arithmetic -/

lemma animateProgress_step (k : ℕ) (hk : k < 99) :
    animateProgress ((k : ℝ) / 100) = ((k + 1 : ℕ) : ℝ) / 100 := by
  unfold animateProgress jsMod jsTrunc
  rw [div_one]
  have h0 : (0 : ℝ) ≤ (k : ℝ) / 100 + 0.01 := by positivity
  rw [if_pos h0]
  have hk98 : (k : ℝ) ≤ 98 := by exact_mod_cast Nat.le_of_lt_succ hk
  have hfl : ⌊(k : ℝ) / 100 + 0.01⌋ = 0 := by
    rw [Int.floor_eq_zero_iff]
    constructor
    · exact h0
    · show (k : ℝ) / 100 + 0.01 < 1
      norm_num
      linarith
  rw [hfl]
  rw [show (0.01 : ℝ) = 1 / 100 by norm_num]
  push_cast
  ring

lemma animateProgress_iter (k : ℕ) (hk : k ≤ 99) :
    animateProgress^[k] 0 = (k : ℝ) / 100 := by
  induction k with
  | zero => simp
  | succ k ih =>
    rw [Function.iterate_succ_apply', ih (by omega)]
    exact animateProgress_step k (by omega)

/-- C3: every animator tick sets `progress` to `(progress + 0.01) % 1`, and
iterating that update 100 times from `progress = 0` yields exactly `0`. -/
theorem animator_progress_returns_to_zero :
    (∀ (pat : PatternType) (s : RenderState),
        (animate pat s).progress = animateProgress s.progress) ∧
    animateProgress^[100] (0 : ℝ) = 0 := by
  constructor
  · intro pat s
    cases pat <;> rfl
  · have h99 : animateProgress^[99] (0 : ℝ) = (99 : ℝ) / 100 := by
      have h := animateProgress_iter 99 le_rfl
      push_cast at h
      exact h
    rw [show (100 : ℕ) = 99 + 1 by norm_num, Function.iterate_succ_apply', h99]
    unfold animateProgress jsMod jsTrunc
    rw [div_one]
    rw [if_pos (by norm_num : (0 : ℝ) ≤ (99 : ℝ) / 100 + 0.01)]
    rw [show (99 : ℝ) / 100 + 0.01 = 1 by norm_num]
    simp

/-! ### The spirograph sampler -/

/-- C5: for `i ≤ iterations`, with `t = (i / iterations) · 20π`, the `i`-th
sampled spirograph point is exactly the documented hypotrochoid-style
formula around the surface midpoint `(width / 2, height / 2)`
(precondition `innerRadius ≠ 0`). -/
theorem spirograph_point_formula (w h R r off : ℝ) (N i : ℕ)
    (hr : r ≠ 0) (hN : 0 < N) (hi : i ≤ N) :
    (spiroPoints (w / 2) (h / 2) R r off N)[i]? =
      some (w / 2 + (R - r) * Real.cos ((i : ℝ) / (N : ℝ) * (20 * Real.pi))
              + off * Real.cos ((R - r) / r * ((i : ℝ) / (N : ℝ) * (20 * Real.pi))),
            h / 2 + (R - r) * Real.sin ((i : ℝ) / (N : ℝ) * (20 * Real.pi))
              - off * Real.sin ((R - r) / r * ((i : ℝ) / (N : ℝ) * (20 * Real.pi)))) := by
  unfold spiroPoints
  rw [List.getElem?_map, List.getElem?_range (by omega : i < N + 1)]
  simp only [Option.map_some']
  rw [show (i : ℝ) / (N : ℝ) * Real.pi * 20 = (i : ℝ) / (N : ℝ) * (20 * Real.pi) by ring]
  rfl

theorem spirograph_point_formula_witness :
    ((100 : ℝ) ≠ 0 ∧ 0 < 4 ∧ 1 ≤ 4) ∧
      (spiroPoints (800 / 2) (600 / 2) 200 100 50 4)[1]? =
        some (800 / 2 + (200 - 100) * Real.cos (((1 : ℕ) : ℝ) / ((4 : ℕ) : ℝ) * (20 * Real.pi))
                + 50 * Real.cos ((200 - 100) / 100 *
                    (((1 : ℕ) : ℝ) / ((4 : ℕ) : ℝ) * (20 * Real.pi))),
              600 / 2 + (200 - 100) * Real.sin (((1 : ℕ) : ℝ) / ((4 : ℕ) : ℝ) * (20 * Real.pi))
                - 50 * Real.sin ((200 - 100) / 100 *
                    (((1 : ℕ) : ℝ) / ((4 : ℕ) : ℝ) * (20 * Real.pi)))) :=
  ⟨⟨by norm_num, by norm_num, by norm_num⟩,
    spirograph_point_formula 800 600 200 100 50 4 1 (by norm_num) (by norm_num) (by norm_num)⟩

/-- C6: a spirograph call with `iterations = N` strokes one continuous
polyline through exactly `N + 1` sampled points (then re-strokes the same
polyline once as a glow pass), and when `offset = 0` every sampled point lies
at Euclidean distance `outerRadius - innerRadius` from the surface midpoint. -/
theorem spirograph_count_and_degenerate_circle (w h R r off speed : ℝ) (N : ℕ)
    (hRr : r ≤ R) :
    drawSpirograph w h ⟨R, r, off, speed, N⟩ =
      [CanvasOp.fillRect "#0a0a15" 1 0 0 w h,
       CanvasOp.strokePath (spiroPoints (w / 2) (h / 2) R r off N) 2 0.7 false,
       CanvasOp.strokePath (spiroPoints (w / 2) (h / 2) R r off N) 2 0.5 true] ∧
    (spiroPoints (w / 2) (h / 2) R r off N).length = N + 1 ∧
    ∀ p ∈ spiroPoints (w / 2) (h / 2) R r 0 N,
      Real.sqrt ((p.1 - w / 2) ^ 2 + (p.2 - h / 2) ^ 2) = R - r := by
  refine ⟨rfl, ?_, ?_⟩
  · unfold spiroPoints
    rw [List.length_map, List.length_range]
  · intro p hp
    unfold spiroPoints at hp
    rw [List.mem_map] at hp
    obtain ⟨i, _, rfl⟩ := hp
    unfold spiroPoint
    have key : ((w / 2 + (R - r) * Real.cos ((i : ℝ) / (N : ℝ) * Real.pi * 20)
          + 0 * Real.cos ((R - r) / r * ((i : ℝ) / (N : ℝ) * Real.pi * 20))) - w / 2) ^ 2 +
        ((h / 2 + (R - r) * Real.sin ((i : ℝ) / (N : ℝ) * Real.pi * 20)
          - 0 * Real.sin ((R - r) / r * ((i : ℝ) / (N : ℝ) * Real.pi * 20))) - h / 2) ^ 2
        = (R - r) ^ 2 := by
      have hsc := Real.sin_sq_add_cos_sq ((i : ℝ) / (N : ℝ) * Real.pi * 20)
      nlinarith [hsc]
    rw [key, Real.sqrt_sq (by linarith : (0 : ℝ) ≤ R - r)]

theorem spirograph_count_and_degenerate_circle_witness :
    (100 : ℝ) ≤ 200 ∧
      (spiroPoints (800 / 2) (600 / 2) 200 100 0 360).length = 360 + 1 ∧
      Real.sqrt
          (((spiroPoint (800 / 2) (600 / 2) 200 100 0
                (((0 : ℕ) : ℝ) / ((360 : ℕ) : ℝ) * Real.pi * 20)).1 - 800 / 2) ^ 2 +
            ((spiroPoint (800 / 2) (600 / 2) 200 100 0
                (((0 : ℕ) : ℝ) / ((360 : ℕ) : ℝ) * Real.pi * 20)).2 - 600 / 2) ^ 2)
        = 200 - 100 := by
  have h := spirograph_count_and_degenerate_circle 800 600 200 100 0 0.05 360 (by norm_num)
  refine ⟨by norm_num, h.2.1, ?_⟩
  refine h.2.2 _ ?_
  unfold spiroPoints
  exact List.mem_map.mpr ⟨0, List.mem_range.mpr (by norm_num), rfl⟩

/-! ### Numeric bounds for the flow-field counterexample

The first advection step of a particle started at the origin (random draws
`0`) with no jitter (random draw `0.5`) has heading `noise 0 0 * PI * 4`,
which lies strictly inside `(PI/2, 3PI/2)`, so its x-displacement is
negative and the wrap fires on the low edge. -/

lemma sin_twenty_eq : Real.sin 20 = Real.sin (20 - 6 * Real.pi) := by
  conv_lhs =>
    rw [show (20 : ℝ) = 20 - 6 * Real.pi + (3 : ℤ) * (2 * Real.pi) by push_cast; ring]
  exact Real.sin_add_int_mul_two_pi _ 3

lemma sin_forty_eq : Real.sin 40 = Real.sin (40 - 12 * Real.pi) := by
  conv_lhs =>
    rw [show (40 : ℝ) = 40 - 12 * Real.pi + (6 : ℤ) * (2 * Real.pi) by push_cast; ring]
  exact Real.sin_add_int_mul_two_pi _ 6

lemma sin_twenty_gt_half : 1 / 2 < Real.sin 20 := by
  have hlo := Real.pi_gt_d6
  have hhi := Real.pi_lt_d6
  rw [sin_twenty_eq]
  have hmem1 : Real.pi / 6 ∈ Set.Icc (-(Real.pi / 2)) (Real.pi / 2) := by
    constructor <;> linarith
  have hmem2 : 20 - 6 * Real.pi ∈ Set.Icc (-(Real.pi / 2)) (Real.pi / 2) := by
    constructor <;> linarith
  have hlt : Real.pi / 6 < 20 - 6 * Real.pi := by linarith
  have h := Real.strictMonoOn_sin hmem1 hmem2 hlt
  rw [Real.sin_pi_div_six] at h
  exact h

lemma sin_forty_pos : 0 < Real.sin 40 := by
  have hlo := Real.pi_gt_d6
  have hhi := Real.pi_lt_d6
  rw [sin_forty_eq]
  exact Real.sin_pos_of_pos_of_lt_pi (by linarith) (by linarith)

lemma sin_forty_lt : Real.sin 40 < 0.85 := by
  have hlo := Real.pi_gt_d6
  have hhi := Real.pi_lt_d6
  rw [sin_forty_eq, ← Real.sin_pi_sub]
  have h1 : 0 < Real.pi - (40 - 12 * Real.pi) := by linarith
  have h2 := Real.sin_lt h1
  linarith

lemma noise_zero_zero : noise 0 0 = Real.sin 20 / 4 + Real.sin 40 / 8 := by
  unfold noise
  rw [show (0 : ℝ) * 0.01 = 0 by ring, show (0 : ℝ) * 0.02 + 10 = 10 by ring,
    show (0 : ℝ) * 0.03 + 20 = 20 by ring, Real.sin_zero]
  have h1 : Real.sin 10 * Real.cos 10 = Real.sin 20 / 2 := by
    have h := Real.sin_two_mul 10
    rw [show (2 : ℝ) * 10 = 20 by norm_num] at h
    linarith
  have h2 : Real.sin 20 * Real.cos 20 = Real.sin 40 / 2 := by
    have h := Real.sin_two_mul 20
    rw [show (2 : ℝ) * 20 = 40 by norm_num] at h
    linarith
  rw [h1, h2]
  ring

lemma cos_flow_angle_neg : Real.cos (noise 0 0 * Real.pi * 4) < 0 := by
  have h20 := sin_twenty_gt_half
  have h40p := sin_forty_pos
  have h40l := sin_forty_lt
  have h20u := Real.sin_le_one 20
  have hpi := Real.pi_pos
  have hlo8 : 1 / 8 < noise 0 0 := by rw [noise_zero_zero]; linarith
  have hhi8 : noise 0 0 < 3 / 8 := by rw [noise_zero_zero]; linarith
  apply Real.cos_neg_of_pi_div_two_lt_of_lt
  · nlinarith
  · nlinarith

/-- C1 counterexample: in a flow-field run on a 600 × 600 surface with the
default parameters (`noiseScale = 0.01`, `flowStrength = 2`), a particle
seeded at the origin (random draws `0`) with jitter draws `0.5` sits at
`x = 600 = width` after its first advection step, so the claimed strict
post-step invariant `x < width` is false. -/
theorem flow_wrap_strict_bound_counterexample :
    (flowTrajectory 600 600 0.01 2 constHalf (0, 0) 1).1 = 600 ∧
    ¬(flowTrajectory 600 600 0.01 2 constHalf (0, 0) 1).1 < 600 := by
  have key : (flowTrajectory 600 600 0.01 2 constHalf (0, 0) 1).1 = 600 := by
    show (flowStep 600 600 0.01 2 (constHalf 0)
      (flowTrajectory 600 600 0.01 2 constHalf (0, 0) 0)).1 = 600
    rw [flowStep_fst,
      show flowTrajectory 600 600 0.01 2 constHalf (0, 0) 0 = ((0 : ℝ), (0 : ℝ)) from rfl]
    simp only
    rw [show constHalf 0 = 1 / 2 from rfl,
      show ((1 : ℝ) / 2 - 0.5) * 0.5 = 0 by norm_num,
      show (0 : ℝ) * 0.01 = 0 by ring, add_zero, zero_add]
    have hneg : Real.cos (noise 0 0 * Real.pi * 4) * 2 < 0 :=
      mul_neg_of_neg_of_pos cos_flow_angle_neg (by norm_num)
    unfold wrapCoord
    rw [if_pos hneg]
  exact ⟨key, by rw [key]; exact lt_irrefl 600⟩

/-- C1 (amended): after every advection step (for any parameters, any start
and any jitter draws, on a surface with `width, height ≥ 0`) the post-wrap
position lies in the closed box `0 ≤ x ≤ width`, `0 ≤ y ≤ height`: an
out-of-bounds coordinate re-enters at the opposite edge (a low-edge exit is
placed at exactly `width`, a high-edge exit at exactly `0` — not reflected,
not clamped to its own edge), so the bounds are attained and the invariant
is the closed interval, not the half-open one. -/
theorem flow_positions_in_closed_box (w h ns fs : ℝ) (jit : ℕ → ℝ) (start : ℝ × ℝ)
    (n : ℕ) (hw : 0 ≤ w) (hh : 0 ≤ h) (hn : 1 ≤ n) :
    (0 ≤ (flowTrajectory w h ns fs jit start n).1 ∧
      (flowTrajectory w h ns fs jit start n).1 ≤ w) ∧
    (0 ≤ (flowTrajectory w h ns fs jit start n).2 ∧
      (flowTrajectory w h ns fs jit start n).2 ≤ h) := by
  obtain ⟨m, rfl⟩ : ∃ m, n = m + 1 := ⟨n - 1, by omega⟩
  have hstep : flowTrajectory w h ns fs jit start (m + 1)
      = flowStep w h ns fs (jit m) (flowTrajectory w h ns fs jit start m) := rfl
  constructor
  · rw [hstep, flowStep_fst]
    exact wrapCoord_bounds w hw _
  · rw [hstep, flowStep_snd]
    exact wrapCoord_bounds h hh _

theorem flow_positions_in_closed_box_witness :
    ((0 : ℝ) ≤ 600 ∧ (0 : ℝ) ≤ 600 ∧ 1 ≤ 1) ∧
      ((0 ≤ (flowTrajectory 600 600 0.01 2 constHalf (0, 0) 1).1 ∧
          (flowTrajectory 600 600 0.01 2 constHalf (0, 0) 1).1 ≤ 600) ∧
        (0 ≤ (flowTrajectory 600 600 0.01 2 constHalf (0, 0) 1).2 ∧
          (flowTrajectory 600 600 0.01 2 constHalf (0, 0) 1).2 ≤ 600)) :=
  ⟨⟨by norm_num, by norm_num, le_rfl⟩,
    flow_positions_in_closed_box 600 600 0.01 2 constHalf (0, 0) 1
      (by norm_num) (by norm_num) le_rfl⟩

/-- C10: one flow-field advection step maps a position in the closed box
`[0, width] × [0, height]` back into that box for every `flowStrength`; the
wrap sends a coordinate below `0` to exactly `width` and one above `width`
to exactly `0`, and leaves a coordinate sitting exactly on an edge (`0` or
`width`) unchanged. -/
theorem flow_step_box_and_wrap_edges (w h ns fs jr x y z1 z2 : ℝ)
    (hw : 0 ≤ w) (hh : 0 ≤ h) (hz1 : z1 < 0) (hz2 : w < z2)
    (hx0 : 0 ≤ x) (hxw : x ≤ w) (hy0 : 0 ≤ y) (hyh : y ≤ h) :
    wrapCoord w z1 = w ∧ wrapCoord w z2 = 0 ∧
    wrapCoord w 0 = 0 ∧ wrapCoord w w = w ∧
    (0 ≤ (flowStep w h ns fs jr (x, y)).1 ∧ (flowStep w h ns fs jr (x, y)).1 ≤ w) ∧
    (0 ≤ (flowStep w h ns fs jr (x, y)).2 ∧ (flowStep w h ns fs jr (x, y)).2 ≤ h) := by
  refine ⟨?_, ?_, ?_, ?_, ?_, ?_⟩
  · unfold wrapCoord
    rw [if_pos hz1]
  · unfold wrapCoord
    rw [if_neg (by linarith : ¬z2 < 0), if_pos hz2]
  · unfold wrapCoord
    rw [if_neg (by linarith : ¬(0 : ℝ) < 0), if_neg (by simpa using hw : ¬(0 : ℝ) > w)]
  · unfold wrapCoord
    rw [if_neg (by linarith : ¬w < 0), if_neg (lt_irrefl w)]
  · rw [flowStep_fst]
    exact wrapCoord_bounds w hw _
  · rw [flowStep_snd]
    exact wrapCoord_bounds h hh _

theorem flow_step_box_and_wrap_edges_witness :
    ((0 : ℝ) ≤ 100 ∧ (0 : ℝ) ≤ 50 ∧ (-1 : ℝ) < 0 ∧ (100 : ℝ) < 101 ∧
        (0 : ℝ) ≤ 10 ∧ (10 : ℝ) ≤ 100 ∧ (0 : ℝ) ≤ 5 ∧ (5 : ℝ) ≤ 50) ∧
      (wrapCoord 100 (-1) = 100 ∧ wrapCoord 100 101 = 0 ∧
        wrapCoord 100 0 = 0 ∧ wrapCoord 100 100 = 100 ∧
        (0 ≤ (flowStep 100 50 0.01 2 (1 / 2) (10, 5)).1 ∧
          (flowStep 100 50 0.01 2 (1 / 2) (10, 5)).1 ≤ 100) ∧
        (0 ≤ (flowStep 100 50 0.01 2 (1 / 2) (10, 5)).2 ∧
          (flowStep 100 50 0.01 2 (1 / 2) (10, 5)).2 ≤ 50)) :=
  ⟨⟨by norm_num, by norm_num, by norm_num, by norm_num,
      by norm_num, by norm_num, by norm_num, by norm_num⟩,
    flow_step_box_and_wrap_edges 100 50 0.01 2 (1 / 2) 10 5 (-1) 101
      (by norm_num) (by norm_num) (by norm_num) (by norm_num)
      (by norm_num) (by norm_num) (by norm_num) (by norm_num)⟩
